import Mathlib
/-!
Verification of `utilities.py` from the `ml-project-1-svm` repository:
a shallow embedding of its cross-validation, hyperparameter-search,
metric and feature-selection functions, together with theorems settling
the specification claims about them.

Numeric values are modelled by `ℚ`; a possibly-NaN matrix cell by
`Option ℚ` (with `none` for NaN); a Python function that can fail by
`Option`/`Except`.  The numpy random shuffle is modelled by passing the
shuffled index list explicitly, with the hypothesis that it is a
permutation of `range N`.
-/

namespace Utilities

/-! ### Metric engine: `compute_f1` and `calculate_metrics` -/
/-- `compute_f1(y_true, y_pred)` from `utilities.py`.
The Python function first runs
`assert y_true.shape[0] == y_pred.shape[0]` (modelled by `none` on
mismatch), then counts TP/FP/FN elementwise and applies the
zero-denominator fallbacks `precision = 0`, `recall = 0`, `f1 = 0`. -/
def compute_f1 (y_true y_pred : List ℚ) : Option ℚ :=
  if y_true.length = y_pred.length then
    let pairs := y_true.zip y_pred
    let TP : ℕ := (pairs.filter (fun p => decide (p.2 = 1 ∧ p.1 = 1))).length
    let FP : ℕ := (pairs.filter (fun p => decide (p.2 = 1 ∧ p.1 = 0))).length
    let FN : ℕ := (pairs.filter (fun p => decide (p.2 = 0 ∧ p.1 = 1))).length
    let precision : ℚ := if (TP : ℚ) + FP ≠ 0 then TP / (TP + FP) else 0
    let recl : ℚ := if (TP : ℚ) + FN ≠ 0 then TP / (TP + FN) else 0
    some (if precision + recl ≠ 0 then
            2 * (precision * recl) / (precision + recl)
          else 0)
  else none

/-- `calculate_metrics(y_true, y_pred)` from `utilities.py`: iterates
`for yt, yp in zip(y_true, y_pred)` accumulating `(TP, FP, TN, FN)`.
Python's `zip` stops at the shorter sequence, so the function is total. -/
def calculate_metrics (y_true y_pred : List ℚ) : ℕ × ℕ × ℕ × ℕ :=
  (y_true.zip y_pred).foldl
    (fun acc p =>
      match acc, p with
      | (TP, FP, TN, FN), (yt, yp) =>
        if yt = 1 ∧ yp = 1 then (TP + 1, FP, TN, FN)
        else if yt = 0 ∧ yp = 1 then (TP, FP + 1, TN, FN)
        else if yt = 1 ∧ yp = 0 then (TP, FP, TN, FN + 1)
        else if yt = 0 ∧ yp = 0 then (TP, FP, TN + 1, FN)
        else (TP, FP, TN, FN))
    ((0, 0, 0, 0) : ℕ × ℕ × ℕ × ℕ)

/-- The F1 score exactly as the specification words it: confusion counts
by pairwise comparison, `precision := 0` when `TP+FP = 0`, `recall := 0`
when `TP+FN = 0`, `F1 := 0` when `precision+recall = 0`, otherwise
`2·P·R/(P+R)`.  Total on equal-length inputs. -/
def f1_spec (y_true y_pred : List ℚ) : ℚ :=
  let pairs := y_true.zip y_pred
  let TP : ℕ := (pairs.filter (fun p => decide (p.1 = 1 ∧ p.2 = 1))).length
  let FP : ℕ := (pairs.filter (fun p => decide (p.1 = 0 ∧ p.2 = 1))).length
  let FN : ℕ := (pairs.filter (fun p => decide (p.1 = 1 ∧ p.2 = 0))).length
  let precision : ℚ := if (TP : ℚ) + FP = 0 then 0 else TP / (TP + FP)
  let recl : ℚ := if (TP : ℚ) + FN = 0 then 0 else TP / (TP + FN)
  if precision + recl = 0 then 0
  else 2 * (precision * recl) / (precision + recl)

/-! ### Feature selector (a): sentinel/NaN density filter -/
/-- `np.sum(x_data[:, j] == v)`: number of rows of column `j` equal to
the sentinel value `v`.  A matrix is modelled as its entry function
`ℕ → ℕ → Option ℚ` (row, column), `none` standing for NaN, together with
its row count `N`. -/
def countVal (x : ℕ → ℕ → Option ℚ) (N j : ℕ) (v : ℚ) : ℕ :=
  List.countP (fun r => decide (x r j = some v)) (List.range N)

/-- `np.sum(np.isnan(x_data[:, j]))`: number of NaN rows of column `j`. -/
def countNan (x : ℕ → ℕ → Option ℚ) (N j : ℕ) : ℕ :=
  List.countP (fun r => decide (x r j = none)) (List.range N)

/-- The loop body of `columns_to_remove`:
`per_remove = (num_nan + num_2729 + num_3739 + num_4749 + num_6769) / x_data.shape[0]`. -/
def per_remove (x : ℕ → ℕ → Option ℚ) (N j : ℕ) : ℚ :=
  ((countNan x N j + (countVal x N j 77 + countVal x N j 99)
      + (countVal x N j 777 + countVal x N j 999)
      + (countVal x N j 7777 + countVal x N j 9999)
      + (countVal x N j 777777 + countVal x N j 999999) : ℕ) : ℚ) / (N : ℚ)

/-- `columns_to_remove(x_data, t)` from `utilities.py`: the loop
`for j in range(D)` appending `j` to `remove` whenever `per_remove >= t`. -/
def columns_to_remove (x : ℕ → ℕ → Option ℚ) (N D : ℕ) (t : ℚ) : List ℕ :=
  (List.range D).foldl
    (fun remove j => if per_remove x N j ≥ t then remove ++ [j] else remove)
    []

/-- Whether a matrix cell is NaN or one of the sentinel codes
`{77, 99, 777, 999, 7777, 9999, 777777, 999999}` (the specification's
description of a "missing" entry). -/
def isMissing (v : Option ℚ) : Bool :=
  decide (v = none) || decide (v = some 77) || decide (v = some 99)
    || decide (v = some 777) || decide (v = some 999)
    || decide (v = some 7777) || decide (v = some 9999)
    || decide (v = some 777777) || decide (v = some 999999)

/-- The fraction of rows of column `j` that are NaN or a sentinel code,
as the specification words it. -/
def missing_fraction (x : ℕ → ℕ → Option ℚ) (N j : ℕ) : ℚ :=
  ((List.countP (fun r => isMissing (x r j)) (List.range N) : ℕ) : ℚ) / (N : ℚ)

/-! ### Feature selector (b): pairwise correlation filter

`np.corrcoef` itself is an external floating-point routine; the filter's
logic is specified and verified for an arbitrary correlation matrix
`corr : ℕ → ℕ → ℚ` of size `D`. -/
/-- The double loop of `drop_highly_correlated_features`:
`for i in range(D): for j in range(i+1, D): if abs(corr[i,j]) > threshold:
drop_cols[j] = True`, starting from `np.zeros(D, dtype=bool)`. -/
def dropColsLoop (corr : ℕ → ℕ → ℚ) (threshold : ℚ) (D : ℕ) : List Bool :=
  (List.range D).foldl
    (fun drop_cols i =>
      (List.range' (i + 1) (D - (i + 1))).foldl
        (fun drop_cols j =>
          if |corr i j| > threshold then drop_cols.set j true else drop_cols)
        drop_cols)
    (List.replicate D false)

/-- Numpy boolean-mask column selection `row[~drop_cols]`: keep the
entries whose mask bit is `false`. -/
def applyMask (drop_cols : List Bool) (row : List ℚ) : List ℚ :=
  ((row.zip drop_cols).filter (fun p => !p.2)).map Prod.fst

/-- `drop_highly_correlated_features(data, threshold)` from
`utilities.py`: computes the drop mask by the double loop and returns
`(data[:, ~drop_cols], drop_cols)`. -/
def drop_highly_correlated_features (corr : ℕ → ℕ → ℚ) (threshold : ℚ)
    (D : ℕ) (data : List (List ℚ)) : List (List ℚ) × List Bool :=
  let drop_cols := dropColsLoop corr threshold D
  (data.map (fun row => applyMask drop_cols row), drop_cols)

/-- `drop_test_correlated_features(x_test, drop_cols)` from
`utilities.py`: `x_test[:, ~drop_cols]`, the mask applied verbatim. -/
def drop_test_correlated_features (x_test : List (List ℚ))
    (drop_cols : List Bool) : List (List ℚ) :=
  x_test.map (fun row => applyMask drop_cols row)

/-! ### Hyperparameter search

`k_fold_cross_validation` is called once per grid point on the current
`model_params` dictionary; in `hyperparameter_tuning` theorems it is
abstracted as an oracle `cv : (String → Option ℚ) → ℚ × ℚ` returning
`(accuracy, f1_score)`.  The Python dictionary is modelled as a function
`String → Option ℚ`. -/
/-- State of `hyperparameter_tuning`'s loop: the running best record and
the (mutated in place) `model_params` dictionary. -/
structure TuneState where
  best_accuracy : ℚ
  best_f1_score : ℚ
  best_param_lambda : Option ℚ
  best_param_gamma : Option ℚ
  model_params : String → Option ℚ

/-- Python dictionary assignment `params[key] = v`. -/
def updateParam (params : String → Option ℚ) (key : String) (v : ℚ) :
    String → Option ℚ :=
  fun k => if k = key then some v else params k

/-- One grid-point iteration of `hyperparameter_tuning`:
`model_params["lambda_"] = lambda_`, `model_params["gamma"] = gamma`,
run cross-validation, and replace the best record when
`f1_score >= best_f1_score and accuracy >= best_accuracy`. -/
def tuningStep (cv : (String → Option ℚ) → ℚ × ℚ) (gamma lambda_ : ℚ)
    (s : TuneState) : TuneState :=
  let mp := updateParam (updateParam s.model_params "lambda_" lambda_) "gamma" gamma
  let accuracy := (cv mp).1
  let f1_score := (cv mp).2
  if f1_score ≥ s.best_f1_score ∧ accuracy ≥ s.best_accuracy then
    { best_accuracy := accuracy, best_f1_score := f1_score,
      best_param_lambda := some lambda_, best_param_gamma := some gamma,
      model_params := mp }
  else
    { s with model_params := mp }

/-- `hyperparameter_tuning(X, y, model, lambdas, gammas, model_params, k)`
from `utilities.py`: gamma in the outer loop, lambda in the inner loop,
starting from `best_accuracy = 0`, `best_f1_score = 0`,
`best_param_lambda = best_param_gamma = None`.  Returns the best pair
and (being a Python dict, shared with the caller) the final
`model_params`. -/
def hyperparameter_tuning (cv : (String → Option ℚ) → ℚ × ℚ)
    (lambdas gammas : List ℚ) (model_params : String → Option ℚ) :
    (Option ℚ × Option ℚ) × (String → Option ℚ) :=
  let final := gammas.foldl
    (fun s gamma =>
      lambdas.foldl (fun s lambda_ => tuningStep cv gamma lambda_ s) s)
    { best_accuracy := 0, best_f1_score := 0, best_param_lambda := none,
      best_param_gamma := none, model_params := model_params }
  ((final.best_param_lambda, final.best_param_gamma), final.model_params)

/-! ### Fold partitioner and cross-validator

`np.random.shuffle(indices)` is modelled by passing the shuffled index
list explicitly (a permutation of `range N`); `sigmoid` (an external
transcendental function) and `model` (an external collaborator in the
source too) are parameters.  Out-of-bounds numpy fancy indexing raises,
modelled by `Except String`. -/
/-- `np.setdiff1d(a, b)`: the sorted (ascending) list of unique values
of `a` that are not in `b`. -/
def setdiff1d (a b : List ℕ) : List ℕ :=
  (a.toFinset \ b.toFinset).sort (· ≤ ·)

/-- `indices[i*fold_size : (i+1)*fold_size]`: fold `i`'s test indices. -/
def test_indices (shuffled : List ℕ) (fold_size i : ℕ) : List ℕ :=
  (shuffled.drop (i * fold_size)).take fold_size

/-- `np.setdiff1d(indices, test_indices)`: fold `i`'s train indices. -/
def train_indices (shuffled test : List ℕ) : List ℕ :=
  setdiff1d shuffled test

/-- Numpy fancy indexing `l[idx]`: raises `IndexError` when some index
is out of bounds. -/
def select {α : Type} (l : List α) : List ℕ → Except String (List α)
  | [] => Except.ok []
  | i :: is =>
    match l[i]? with
    | some v =>
      match select l is with
      | Except.ok vs => Except.ok (v :: vs)
      | Except.error e => Except.error e
    | none => Except.error "IndexError"

/-- Row–weight dot product, `X[r] @ w`. -/
def dot (row w : List ℚ) : ℚ :=
  ((row.zip w).map (fun p => p.1 * p.2)).sum

/-- `predict_logistic(X, w, threshold) = (sigmoid(X @ w) >= threshold)`
from `utilities.py`, with `sigmoid` an external function parameter. -/
def predict_logistic (sigmoid : ℚ → ℚ) (X : List (List ℚ)) (w : List ℚ)
    (threshold : ℚ) : List Bool :=
  X.map (fun row => decide (sigmoid (dot row w) ≥ threshold))

/-- Numpy's implicit bool-to-float upcast in `y_pred == y_test`. -/
def boolToQ (b : Bool) : ℚ := if b then 1 else 0

/-- `np.mean` of a list of rationals. -/
def mean (l : List ℚ) : ℚ := l.sum / (l.length : ℚ)

/-- The body of `k_fold_cross_validation`'s `for i in range(k)` loop:
slice the fold, fit the model, predict, and score accuracy and F1.
`compute_f1`'s assertion is modelled by the `AssertionError` branch. -/
def fold_step (sigmoid : ℚ → ℚ) (shuffled : List ℕ) (X : List (List ℚ))
    (y : List ℚ)
    (model : List ℚ → List (List ℚ) → (String → Option ℚ) → List ℚ × ℚ)
    (fold_size : ℕ) (model_params : String → Option ℚ) (threshold : ℚ)
    (i : ℕ) : Except String (ℚ × ℚ) := do
  let test_idx := test_indices shuffled fold_size i
  let train_idx := train_indices shuffled test_idx
  let X_train ← select X train_idx
  let X_test ← select X test_idx
  let y_train ← select y train_idx
  let y_test ← select y test_idx
  let wl := model y_train X_train model_params
  let y_pred := predict_logistic sigmoid X_test wl.1 threshold
  let accuracy := mean ((y_pred.zip y_test).map
    (fun p => if boolToQ p.1 = p.2 then (1 : ℚ) else 0))
  match compute_f1 y_test (y_pred.map boolToQ) with
  | none => Except.error "AssertionError"
  | some f1 => Except.ok (accuracy, f1)

/-- Sequential evaluation of the fold bodies, aborting at the first
raised exception (as the Python loop does). -/
def mapExcept (f : ℕ → Except String (ℚ × ℚ)) :
    List ℕ → Except String (List (ℚ × ℚ))
  | [] => Except.ok []
  | i :: is => do
    let r ← f i
    let rs ← mapExcept f is
    Except.ok (r :: rs)

/-- `k_fold_cross_validation(X, y, model, k, model_params, threshold=0.5)`
from `utilities.py`: `fold_size = num_samples // k`, run the k folds,
return the mean accuracy and mean F1. -/
def k_fold_cross_validation (sigmoid : ℚ → ℚ) (shuffled : List ℕ)
    (X : List (List ℚ)) (y : List ℚ)
    (model : List ℚ → List (List ℚ) → (String → Option ℚ) → List ℚ × ℚ)
    (k : ℕ) (model_params : String → Option ℚ) (threshold : ℚ) :
    Except String (ℚ × ℚ) := do
  let num_samples := X.length
  let fold_size := num_samples / k
  let results ← mapExcept
    (fold_step sigmoid shuffled X y model fold_size model_params threshold)
    (List.range k)
  Except.ok (mean (results.map Prod.fst), mean (results.map Prod.snd))

lemma filter_comm_eq (y_true y_pred : List ℚ) (a b : ℚ) :
    ((y_true.zip y_pred).filter (fun p => decide (p.2 = b ∧ p.1 = a))).length =
      ((y_true.zip y_pred).filter (fun p => decide (p.1 = a ∧ p.2 = b))).length := by
  congr 1
  apply List.filter_congr
  intro p _
  simp [and_comm]

lemma zip_truncates : ∀ (a b : List ℚ),
    a.zip b = (a.take b.length).zip (b.take a.length)
  | [], _ => by simp
  | _ :: _, [] => by simp
  | x :: a, y :: b => by
    simpa [List.zip_cons_cons] using zip_truncates a b

lemma countP_missing_split (f : ℕ → Option ℚ) (l : List ℕ) :
    List.countP (fun r => isMissing (f r)) l =
      List.countP (fun r => decide (f r = none)) l
        + (List.countP (fun r => decide (f r = some 77)) l
            + List.countP (fun r => decide (f r = some 99)) l)
        + (List.countP (fun r => decide (f r = some 777)) l
            + List.countP (fun r => decide (f r = some 999)) l)
        + (List.countP (fun r => decide (f r = some 7777)) l
            + List.countP (fun r => decide (f r = some 9999)) l)
        + (List.countP (fun r => decide (f r = some 777777)) l
            + List.countP (fun r => decide (f r = some 999999)) l) := by
  induction l with
  | nil => simp
  | cons a l ih =>
    simp only [List.countP_cons]
    rw [ih]
    rcases hv : f a with _ | q
    · simp [isMissing, hv, Option.some.injEq] <;> omega
    · by_cases h1 : q = 77
      · subst h1; simp [isMissing, hv, Option.some.injEq] <;> omega
      by_cases h2 : q = 99
      · subst h2; simp [isMissing, hv, Option.some.injEq] <;> omega
      by_cases h3 : q = 777
      · subst h3; simp [isMissing, hv, Option.some.injEq] <;> omega
      by_cases h4 : q = 999
      · subst h4; simp [isMissing, hv, Option.some.injEq] <;> omega
      by_cases h5 : q = 7777
      · subst h5; simp [isMissing, hv, Option.some.injEq] <;> omega
      by_cases h6 : q = 9999
      · subst h6; simp [isMissing, hv, Option.some.injEq] <;> omega
      by_cases h7 : q = 777777
      · subst h7; simp [isMissing, hv, Option.some.injEq] <;> omega
      by_cases h8 : q = 999999
      · subst h8; simp [isMissing, hv, Option.some.injEq] <;> omega
      simp [isMissing, hv, h1, h2, h3, h4, h5, h6, h7, h8, Option.some.injEq] <;> omega

lemma per_remove_eq_missing_fraction (x : ℕ → ℕ → Option ℚ) (N j : ℕ) :
    per_remove x N j = missing_fraction x N j := by
  unfold per_remove missing_fraction countNan countVal
  rw [countP_missing_split (fun r => x r j) (List.range N)]

lemma foldl_append_filter (P : ℕ → Prop) [DecidablePred P] :
    ∀ (l : List ℕ) (acc : List ℕ),
      l.foldl (fun acc j => if P j then acc ++ [j] else acc) acc =
        acc ++ l.filter (fun j => decide (P j)) := by
  intro l
  induction l with
  | nil => simp
  | cons a l ih =>
    intro acc
    by_cases h : P a <;> simp [List.foldl_cons, h, ih]

lemma columns_to_remove_eq_filter (x : ℕ → ℕ → Option ℚ) (N D : ℕ) (t : ℚ) :
    columns_to_remove x N D t =
      (List.range D).filter (fun j => decide (per_remove x N j ≥ t)) := by
  unfold columns_to_remove
  rw [foldl_append_filter (fun j => per_remove x N j ≥ t) (List.range D) []]
  rfl

lemma getD_set_true (dc : List Bool) (a j : ℕ) :
    ((dc.set a true).getD j false) =
      if a = j ∧ j < dc.length then true else dc.getD j false := by
  rw [List.getD_eq_getElem?_getD, List.getD_eq_getElem?_getD, List.getElem?_set]
  by_cases h1 : a = j
  · subst h1
    by_cases h2 : a < dc.length
    · simp [h2]
    · simp [h2, List.getElem?_eq_none (Nat.le_of_not_lt h2)]
  · simp [h1]

lemma foldl_setTrue_length (P : ℕ → Prop) [DecidablePred P] :
    ∀ (l : List ℕ) (dc : List Bool),
      (l.foldl (fun dc x => if P x then dc.set x true else dc) dc).length =
        dc.length := by
  intro l
  induction l with
  | nil => simp
  | cons a l ih =>
    intro dc
    rw [List.foldl_cons, ih]
    by_cases h : P a <;> simp [h]

lemma foldl_setTrue_getD (P : ℕ → Prop) [DecidablePred P] :
    ∀ (l : List ℕ) (dc : List Bool) (j : ℕ),
      (l.foldl (fun dc x => if P x then dc.set x true else dc) dc).getD j false =
        (dc.getD j false || decide (j ∈ l ∧ P j ∧ j < dc.length)) := by
  intro l
  induction l with
  | nil => simp
  | cons a l ih =>
    intro dc j
    rw [List.foldl_cons, ih]
    by_cases hPa : P a
    · rw [if_pos hPa, getD_set_true, List.length_set]
      by_cases haj : a = j
      · subst haj
        by_cases hlen : a < dc.length
        · simp [hlen, hPa]
        · simp [hlen]
      · simp only [List.mem_cons]
        by_cases hjl : j ∈ l <;> simp [haj, hjl, Ne.symm haj]
    · rw [if_neg hPa]
      simp only [List.mem_cons]
      by_cases haj : a = j
      · subst haj
        simp [hPa]
      · simp [haj, Ne.symm haj]

lemma innerPass_length (corr : ℕ → ℕ → ℚ) (threshold : ℚ) (i : ℕ)
    (l : List ℕ) (dc : List Bool) :
    (l.foldl
        (fun dc j =>
          if |corr i j| > threshold then dc.set j true else dc) dc).length =
      dc.length :=
  foldl_setTrue_length (fun j => |corr i j| > threshold) l dc

lemma innerPass_getD (corr : ℕ → ℕ → ℚ) (threshold : ℚ) (D i : ℕ)
    (dc : List Bool) (hlen : dc.length = D) (hi : i < D) (j : ℕ) :
    ((List.range' (i + 1) (D - (i + 1))).foldl
        (fun dc j =>
          if |corr i j| > threshold then dc.set j true else dc) dc).getD j false =
      (dc.getD j false || decide (i < j ∧ j < D ∧ |corr i j| > threshold)) := by
  rw [foldl_setTrue_getD (fun j => |corr i j| > threshold)]
  congr 1
  apply decide_eq_decide.mpr
  rw [List.mem_range'_1, hlen]
  constructor
  · rintro ⟨⟨hm1, hm2⟩, hP, hj⟩
    exact ⟨by omega, by omega, hP⟩
  · rintro ⟨h1, h2, hP⟩
    exact ⟨⟨by omega, by omega⟩, hP, by omega⟩

lemma outer_fold_length (corr : ℕ → ℕ → ℚ) (threshold : ℚ) (D : ℕ) :
    ∀ (li : List ℕ) (dc : List Bool),
      (li.foldl
          (fun dc i =>
            (List.range' (i + 1) (D - (i + 1))).foldl
              (fun dc j =>
                if |corr i j| > threshold then dc.set j true else dc) dc)
          dc).length = dc.length := by
  intro li
  induction li with
  | nil => simp
  | cons a li ih =>
    intro dc
    rw [List.foldl_cons, ih, innerPass_length]

lemma outer_fold_getD (corr : ℕ → ℕ → ℚ) (threshold : ℚ) (D : ℕ) :
    ∀ (li : List ℕ) (dc : List Bool), dc.length = D → (∀ i ∈ li, i < D) →
      ∀ j,
      (li.foldl
          (fun dc i =>
            (List.range' (i + 1) (D - (i + 1))).foldl
              (fun dc j =>
                if |corr i j| > threshold then dc.set j true else dc) dc)
          dc).getD j false =
        (dc.getD j false ||
          decide (∃ i ∈ li, i < j ∧ j < D ∧ |corr i j| > threshold)) := by
  intro li
  induction li with
  | nil => simp
  | cons a li ih =>
    intro dc hlen hli j
    rw [List.foldl_cons]
    rw [ih _ (by rw [innerPass_length]; exact hlen)
      (fun i hi => hli i (List.mem_cons_of_mem a hi))]
    rw [innerPass_getD corr threshold D a dc hlen
      (hli a (List.mem_cons_self a li)) j]
    simp only [List.exists_mem_cons_iff, Bool.decide_or, Bool.or_assoc]

lemma dropColsLoop_length (corr : ℕ → ℕ → ℚ) (threshold : ℚ) (D : ℕ) :
    (dropColsLoop corr threshold D).length = D := by
  unfold dropColsLoop
  rw [outer_fold_length]
  simp

lemma dropColsLoop_getD (corr : ℕ → ℕ → ℚ) (threshold : ℚ) (D j : ℕ) :
    (dropColsLoop corr threshold D).getD j false =
      decide (j < D ∧ ∃ i, i < j ∧ |corr i j| > threshold) := by
  unfold dropColsLoop
  rw [outer_fold_getD corr threshold D (List.range D) (List.replicate D false)
    (by simp) (by simp) j]
  have h0 : (List.replicate D false).getD j false = false := by
    rw [List.getD_eq_getElem?_getD, List.getElem?_replicate]
    split <;> rfl
  rw [h0, Bool.false_or]
  apply decide_eq_decide.mpr
  constructor
  · rintro ⟨i, hiD, hij, hjD, h⟩
    exact ⟨hjD, i, hij, h⟩
  · rintro ⟨hjD, i, hij, h⟩
    exact ⟨i, List.mem_range.mpr (lt_trans hij hjD), hij, hjD, h⟩

lemma applyMask_length : ∀ (drop_cols : List Bool) (row : List ℚ),
    row.length = drop_cols.length →
      (applyMask drop_cols row).length =
        drop_cols.countP (fun b => !b)
  | [], [], _ => by simp [applyMask]
  | b :: mask, q :: row, h => by
    have ih := applyMask_length mask row (by simpa using h)
    cases b <;>
      simpa [applyMask, List.countP_cons] using ih
  | [], _ :: _, h => by simp at h
  | _ :: _, [], h => by simp at h

lemma tuningStep_const (cv : (String → Option ℚ) → ℚ × ℚ) (a f : ℚ)
    (hcv : ∀ mp, cv mp = (a, f)) (gamma lambda_ : ℚ) (s : TuneState)
    (hacc : s.best_accuracy ≤ a) (hf1 : s.best_f1_score ≤ f) :
    tuningStep cv gamma lambda_ s =
      { best_accuracy := a, best_f1_score := f,
        best_param_lambda := some lambda_, best_param_gamma := some gamma,
        model_params :=
          updateParam (updateParam s.model_params "lambda_" lambda_) "gamma" gamma } := by
  simp only [tuningStep, hcv]
  rw [if_pos ⟨hf1, hacc⟩]

lemma innerFold_best (cv : (String → Option ℚ) → ℚ × ℚ) (a f : ℚ)
    (hcv : ∀ mp, cv mp = (a, f)) (gamma : ℚ) :
    ∀ (lambdas : List ℚ) (s : TuneState), lambdas ≠ [] →
      s.best_accuracy ≤ a → s.best_f1_score ≤ f →
      (lambdas.foldl (fun s lambda_ => tuningStep cv gamma lambda_ s) s).best_accuracy = a ∧
        (lambdas.foldl (fun s lambda_ => tuningStep cv gamma lambda_ s) s).best_f1_score = f ∧
        (lambdas.foldl (fun s lambda_ => tuningStep cv gamma lambda_ s) s).best_param_lambda =
          lambdas.getLast? ∧
        (lambdas.foldl (fun s lambda_ => tuningStep cv gamma lambda_ s) s).best_param_gamma =
          some gamma := by
  intro lambdas
  induction lambdas with
  | nil => intro s h; exact absurd rfl h
  | cons x t ih =>
    intro s _ hacc hf1
    rw [List.foldl_cons]
    have hstep := tuningStep_const cv a f hcv gamma x s hacc hf1
    cases t with
    | nil => rw [hstep]; exact ⟨rfl, rfl, rfl, rfl⟩
    | cons y t2 =>
      have := ih (tuningStep cv gamma x s) (List.cons_ne_nil y t2)
        (by rw [hstep]) (by rw [hstep])
      rwa [List.getLast?_cons_cons]

lemma outerFold_best (cv : (String → Option ℚ) → ℚ × ℚ) (a f : ℚ)
    (hcv : ∀ mp, cv mp = (a, f)) (lambdas : List ℚ) (hlam : lambdas ≠ []) :
    ∀ (gammas : List ℚ) (s : TuneState), gammas ≠ [] →
      s.best_accuracy ≤ a → s.best_f1_score ≤ f →
      (gammas.foldl
          (fun s gamma =>
            lambdas.foldl (fun s lambda_ => tuningStep cv gamma lambda_ s) s)
          s).best_param_lambda = lambdas.getLast? ∧
        (gammas.foldl
            (fun s gamma =>
              lambdas.foldl (fun s lambda_ => tuningStep cv gamma lambda_ s) s)
            s).best_param_gamma = gammas.getLast? := by
  intro gammas
  induction gammas with
  | nil => intro s h; exact absurd rfl h
  | cons x t ih =>
    intro s _ hacc hf1
    rw [List.foldl_cons]
    have hpass := innerFold_best cv a f hcv x lambdas s hlam hacc hf1
    cases t with
    | nil =>
      rw [List.foldl_nil]
      exact ⟨hpass.2.2.1, by rw [hpass.2.2.2]; simp⟩
    | cons y t2 =>
      have := ih (lambdas.foldl (fun s lambda_ => tuningStep cv x lambda_ s) s)
        (List.cons_ne_nil y t2) (le_of_eq hpass.1) (le_of_eq hpass.2.1)
      rwa [List.getLast?_cons_cons]

lemma tuningStep_model_params (cv : (String → Option ℚ) → ℚ × ℚ)
    (gamma lambda_ : ℚ) (s : TuneState) :
    (tuningStep cv gamma lambda_ s).model_params =
      updateParam (updateParam s.model_params "lambda_" lambda_) "gamma" gamma := by
  simp only [tuningStep]
  split <;> rfl

lemma updateParam_same (params : String → Option ℚ) (key : String) (v : ℚ) :
    updateParam params key v key = some v := by
  simp [updateParam]

lemma updateParam_other (params : String → Option ℚ) (key : String) (v : ℚ)
    (k : String) (h : k ≠ key) : updateParam params key v k = params k := by
  simp [updateParam, h]

lemma innerFold_model_params (cv : (String → Option ℚ) → ℚ × ℚ) (gamma : ℚ) :
    ∀ (lambdas : List ℚ) (s : TuneState), lambdas ≠ [] →
      ((lambdas.foldl (fun s lambda_ => tuningStep cv gamma lambda_ s) s).model_params "lambda_" =
          lambdas.getLast? ∧
        (lambdas.foldl (fun s lambda_ => tuningStep cv gamma lambda_ s) s).model_params "gamma" =
          some gamma ∧
        ∀ k, k ≠ "lambda_" → k ≠ "gamma" →
          (lambdas.foldl (fun s lambda_ => tuningStep cv gamma lambda_ s) s).model_params k =
            s.model_params k) := by
  intro lambdas
  induction lambdas with
  | nil => intro s h; exact absurd rfl h
  | cons x t ih =>
    intro s _
    rw [List.foldl_cons]
    cases t with
    | nil =>
      rw [List.foldl_nil, tuningStep_model_params]
      refine ⟨?_, updateParam_same _ _ _, ?_⟩
      · rw [updateParam_other _ _ _ _ (by decide), updateParam_same]
        rfl
      · intro k hk1 hk2
        rw [updateParam_other _ _ _ _ hk2, updateParam_other _ _ _ _ hk1]
    | cons y t2 =>
      have := ih (tuningStep cv gamma x s) (List.cons_ne_nil y t2)
      rw [List.getLast?_cons_cons]
      refine ⟨this.1, this.2.1, ?_⟩
      intro k hk1 hk2
      rw [this.2.2 k hk1 hk2, tuningStep_model_params,
        updateParam_other _ _ _ _ hk2, updateParam_other _ _ _ _ hk1]

lemma outerFold_model_params (cv : (String → Option ℚ) → ℚ × ℚ)
    (lambdas : List ℚ) (hlam : lambdas ≠ []) :
    ∀ (gammas : List ℚ) (s : TuneState), gammas ≠ [] →
      ((gammas.foldl
            (fun s gamma =>
              lambdas.foldl (fun s lambda_ => tuningStep cv gamma lambda_ s) s)
            s).model_params "lambda_" = lambdas.getLast? ∧
        (gammas.foldl
            (fun s gamma =>
              lambdas.foldl (fun s lambda_ => tuningStep cv gamma lambda_ s) s)
            s).model_params "gamma" = gammas.getLast? ∧
        ∀ k, k ≠ "lambda_" → k ≠ "gamma" →
          (gammas.foldl
              (fun s gamma =>
                lambdas.foldl (fun s lambda_ => tuningStep cv gamma lambda_ s) s)
              s).model_params k = s.model_params k) := by
  intro gammas
  induction gammas with
  | nil => intro s h; exact absurd rfl h
  | cons x t ih =>
    intro s _
    rw [List.foldl_cons]
    have hpass := innerFold_model_params cv x lambdas s hlam
    cases t with
    | nil =>
      rw [List.foldl_nil]
      exact ⟨hpass.1, by rw [hpass.2.1]; simp, hpass.2.2⟩
    | cons y t2 =>
      have hrest := ih (lambdas.foldl (fun s lambda_ => tuningStep cv x lambda_ s) s)
        (List.cons_ne_nil y t2)
      rw [List.getLast?_cons_cons]
      refine ⟨hrest.1, hrest.2.1, ?_⟩
      intro k hk1 hk2
      rw [hrest.2.2 k hk1 hk2, hpass.2.2 k hk1 hk2]

lemma mem_setdiff1d (a b : List ℕ) (x : ℕ) :
    x ∈ setdiff1d a b ↔ x ∈ a ∧ x ∉ b := by
  simp [setdiff1d, Finset.mem_sort, Finset.mem_sdiff, List.mem_toFinset]

lemma setdiff1d_sorted (a b : List ℕ) :
    List.Sorted (· ≤ ·) (setdiff1d a b) :=
  Finset.sort_sorted _ _

lemma setdiff1d_nodup (a b : List ℕ) : (setdiff1d a b).Nodup :=
  Finset.sort_nodup _ _

lemma test_subset_take (l : List ℕ) (fs i m : ℕ) (h : (i + 1) * fs ≤ m) :
    ∀ x ∈ test_indices l fs i, x ∈ l.take m := by
  intro x hx
  have h1 : x ∈ l.take ((i + 1) * fs) := by
    have hadd : (i + 1) * fs = i * fs + fs := by ring
    rw [hadd, List.take_add]
    exact List.mem_append_right _ hx
  have h2 : List.take ((i + 1) * fs) l = List.take ((i + 1) * fs) (List.take m l) := by
    rw [List.take_take, inf_eq_left.mpr h]
  rw [h2] at h1
  exact List.take_subset _ _ h1

lemma test_subset_drop (l : List ℕ) (fs j : ℕ) :
    ∀ x ∈ test_indices l fs j, x ∈ l.drop (j * fs) :=
  fun _ hx => List.take_subset _ _ hx

lemma test_disjoint_lt (l : List ℕ) (hnd : l.Nodup) (fs i j : ℕ) (hij : i < j) :
    ∀ x, x ∈ test_indices l fs i → x ∉ test_indices l fs j := by
  intro x hxi hxj
  have h1 : x ∈ l.take (j * fs) :=
    test_subset_take l fs i (j * fs) (Nat.mul_le_mul_right fs hij) x hxi
  have h2 : x ∈ l.drop (j * fs) := test_subset_drop l fs j x hxj
  exact List.disjoint_take_drop hnd le_rfl h1 h2

lemma join_tests (l : List ℕ) (fs : ℕ) :
    ∀ k, ((List.range k).map (fun i => test_indices l fs i)).flatten = l.take (k * fs)
  | 0 => by simp
  | k + 1 => by
    rw [List.range_succ, List.map_append, List.flatten_append, join_tests l fs k,
      Nat.succ_mul, List.take_add]
    simp [test_indices]

lemma select_ok_of_bounds {α : Type} (l : List α) :
    ∀ (idx : List ℕ), (∀ i ∈ idx, i < l.length) →
      ∃ vs, select l idx = Except.ok vs
  | [], _ => ⟨[], rfl⟩
  | i :: is, h => by
    obtain ⟨vs, hvs⟩ := select_ok_of_bounds l is
      (fun j hj => h j (List.mem_cons_of_mem i hj))
    refine ⟨l.get ⟨i, h i (List.mem_cons_self i is)⟩ :: vs, ?_⟩
    simp only [select]
    rw [List.getElem?_eq_getElem (h i (List.mem_cons_self i is)), hvs]
    rfl

lemma select_err_of_unbounded {α : Type} (l : List α) :
    ∀ (idx : List ℕ), (∃ i ∈ idx, l.length ≤ i) →
      select l idx = Except.error "IndexError"
  | i :: is, h => by
    simp only [select]
    rcases h with ⟨i0, hi0, hlen⟩
    rcases List.mem_cons.mp hi0 with rfl | hi0tail
    · rw [List.getElem?_eq_none hlen]
    · cases hb : l[i]? with
      | none => rfl
      | some v =>
        rw [select_err_of_unbounded l is ⟨i0, hi0tail, hlen⟩]

lemma select_take {α : Type} (l : List α) (N : ℕ) :
    ∀ (idx : List ℕ), (∀ i ∈ idx, i < N) →
      select (l.take N) idx = select l idx
  | [], _ => rfl
  | i :: is, h => by
    simp only [select]
    rw [List.getElem?_take, if_pos (h i (List.mem_cons_self i is)),
      select_take l N is (fun j hj => h j (List.mem_cons_of_mem i hj))]

lemma mapExcept_congr (f g : ℕ → Except String (ℚ × ℚ)) :
    ∀ (l : List ℕ), (∀ i ∈ l, f i = g i) → mapExcept f l = mapExcept g l
  | [], _ => rfl
  | i :: is, h => by
    simp only [mapExcept]
    rw [h i (List.mem_cons_self i is),
      mapExcept_congr f g is (fun j hj => h j (List.mem_cons_of_mem i hj))]

lemma fold_step_take (sigmoid : ℚ → ℚ) (shuffled : List ℕ)
    (X : List (List ℚ)) (y : List ℚ)
    (model : List ℚ → List (List ℚ) → (String → Option ℚ) → List ℚ × ℚ)
    (fs : ℕ) (mp : String → Option ℚ) (threshold : ℚ) (N : ℕ)
    (hmem : ∀ x ∈ shuffled, x < N) (i : ℕ) :
    fold_step sigmoid shuffled X (y.take N) model fs mp threshold i =
      fold_step sigmoid shuffled X y model fs mp threshold i := by
  have htest : ∀ x ∈ test_indices shuffled fs i, x < N :=
    fun x hx => hmem x (List.drop_subset _ _ (List.take_subset _ _ hx))
  have htrain : ∀ x ∈ train_indices shuffled (test_indices shuffled fs i), x < N :=
    fun x hx => hmem x ((mem_setdiff1d _ _ x).mp hx).1
  simp only [fold_step]
  rw [select_take y N _ htrain, select_take y N _ htest]

end Utilities

/-- C7: `columns_to_remove(x_data, t)` marks column `j` if and only if
`j` is a column index and the fraction of its rows that are NaN or a
sentinel code in `{77, 99, 777, 999, 7777, 9999, 777777, 999999}` is
`≥ t` (the boundary is inclusive), and the returned index sequence is
sorted strictly ascending. -/
theorem columns_to_remove_spec (x : ℕ → ℕ → Option ℚ) (N D : ℕ) (t : ℚ) :
    (∀ j, j ∈ Utilities.columns_to_remove x N D t ↔
        j < D ∧ Utilities.missing_fraction x N j ≥ t) ∧
      List.Sorted (· < ·) (Utilities.columns_to_remove x N D t) := by
  rw [Utilities.columns_to_remove_eq_filter]
  constructor
  · intro j
    rw [List.mem_filter]
    simp only [List.mem_range, decide_eq_true_eq,
      Utilities.per_remove_eq_missing_fraction]
  · exact (List.pairwise_lt_range D).filter _

/-- C3: the claim that both metric operations fail on a length mismatch is
false: `calculate_metrics` iterates over `zip(y_true, y_pred)` and so
silently truncates to the shorter sequence.  At `y_true = [1,1]`,
`y_pred = [1]` it returns `(1,0,0,0)` without error, the same value as on
the truncated input `[1]`, `[1]`. -/
theorem calculate_metrics_mismatch_cex :
    Utilities.calculate_metrics [1, 1] [1] = (1, 0, 0, 0) ∧
      Utilities.calculate_metrics [1, 1] [1] = Utilities.calculate_metrics [1] [1] := by
  constructor <;> decide

/-- C3 (amended): `compute_f1` fails with a length-mismatch error exactly
when the two label sequences have different lengths, but
`calculate_metrics` never fails: it silently truncates both sequences to
the shorter length (its value on `(y_true, y_pred)` equals its value on
the mutually truncated pair). -/
theorem metric_engine_length_mismatch (y_true y_pred : List ℚ) :
    (Utilities.compute_f1 y_true y_pred = none ↔ y_true.length ≠ y_pred.length) ∧
      Utilities.calculate_metrics y_true y_pred =
        Utilities.calculate_metrics (y_true.take y_pred.length)
          (y_pred.take y_true.length) := by
  constructor
  · unfold Utilities.compute_f1
    split <;> simp_all
  · unfold Utilities.calculate_metrics
    rw [Utilities.zip_truncates]

/-- C4: on every pair of equal-length label sequences `compute_f1`
returns a value (never an error), and that value follows the
specification's zero-division policy: `precision = 0` when `TP+FP = 0`,
`recall = 0` when `TP+FN = 0`, `F1 = 0` when `precision+recall = 0`,
otherwise `2·P·R/(P+R)`. -/
theorem compute_f1_zero_division_policy (y_true y_pred : List ℚ)
    (h : y_true.length = y_pred.length) :
    Utilities.compute_f1 y_true y_pred = some (Utilities.f1_spec y_true y_pred) := by
  unfold Utilities.compute_f1 Utilities.f1_spec
  rw [if_pos h]
  simp only [ne_eq, ite_not, Utilities.filter_comm_eq]

/-- C4 witness: on `y_true = y_pred = [0,0,0]` (all-zero labels) the
theorem applies and the returned value is `0`, not an error. -/

theorem compute_f1_zero_division_policy_witness :
    Utilities.compute_f1 [0, 0, 0] [0, 0, 0] = some (Utilities.f1_spec [0, 0, 0] [0, 0, 0]) ∧
      Utilities.f1_spec [0, 0, 0] [0, 0, 0] = 0 :=
  ⟨compute_f1_zero_division_policy [0, 0, 0] [0, 0, 0] rfl, by with_unfolding_all rfl⟩

/-- C5: `drop_highly_correlated_features` marks column `j` for removal
if and only if some earlier column `i < j` has `|corr(i,j)| > threshold`
(strict inequality, so the lower-indexed column of a correlated pair is
kept), and it returns the matrix with the marked columns removed
together with a mask of length equal to the original column count. -/
theorem drop_highly_correlated_features_spec (corr : ℕ → ℕ → ℚ)
    (threshold : ℚ) (D : ℕ) (data : List (List ℚ)) (j : ℕ) (hj : j < D) :
    (Utilities.drop_highly_correlated_features corr threshold D data).2.length = D ∧
      ((Utilities.drop_highly_correlated_features corr threshold D data).2.getD j false = true ↔
        ∃ i < j, |corr i j| > threshold) ∧
      (Utilities.drop_highly_correlated_features corr threshold D data).1 =
        data.map (Utilities.applyMask
          (Utilities.drop_highly_correlated_features corr threshold D data).2) := by
  refine ⟨Utilities.dropColsLoop_length corr threshold D, ?_, rfl⟩
  show (Utilities.dropColsLoop corr threshold D).getD j false = true ↔ _
  rw [Utilities.dropColsLoop_getD]
  simp [hj]

/-- C5 witness: at `corr = const 1`, `threshold = 1/2`, `D = 2`,
`data = [[1,2]]`, `j = 1` the theorem applies. -/
theorem drop_highly_correlated_features_spec_witness :
    1 < 2 ∧
      ((Utilities.drop_highly_correlated_features (fun _ _ => (1 : ℚ)) (1/2) 2 [[1, 2]]).2.length = 2 ∧
        ((Utilities.drop_highly_correlated_features (fun _ _ => (1 : ℚ)) (1/2) 2 [[1, 2]]).2.getD 1 false = true ↔
          ∃ i < 1, |(fun _ _ => (1 : ℚ)) i 1| > 1/2) ∧
        (Utilities.drop_highly_correlated_features (fun _ _ => (1 : ℚ)) (1/2) 2 [[1, 2]]).1 =
          [[(1 : ℚ), 2]].map (Utilities.applyMask
            (Utilities.drop_highly_correlated_features (fun _ _ => (1 : ℚ)) (1/2) 2 [[1, 2]]).2)) :=
  ⟨by norm_num,
    drop_highly_correlated_features_spec (fun _ _ => (1 : ℚ)) (1/2) 2 [[1, 2]] 1
      (by norm_num)⟩

/-- C6: applying `drop_test_correlated_features` with the mask computed
by `drop_highly_correlated_features` on the training matrix gives every
test row exactly as many columns as every reduced training row — the
number of `false` entries of the mask — regardless of the test matrix's
own correlation structure. -/
theorem drop_test_correlated_features_width (corr : ℕ → ℕ → ℚ)
    (threshold : ℚ) (D : ℕ) (X_train X_test : List (List ℚ))
    (htr : ∀ r ∈ X_train, r.length = D) (hte : ∀ r ∈ X_test, r.length = D) :
    (∀ r ∈ Utilities.drop_test_correlated_features X_test
        (Utilities.drop_highly_correlated_features corr threshold D X_train).2,
      r.length =
        (Utilities.drop_highly_correlated_features corr threshold D X_train).2.countP
          (fun b => !b)) ∧
      ∀ r ∈ (Utilities.drop_highly_correlated_features corr threshold D X_train).1,
        r.length =
          (Utilities.drop_highly_correlated_features corr threshold D X_train).2.countP
            (fun b => !b) := by
  have hlen := Utilities.dropColsLoop_length corr threshold D
  constructor
  · intro r hr
    simp only [Utilities.drop_test_correlated_features,
      Utilities.drop_highly_correlated_features] at hr ⊢
    rcases List.mem_map.mp hr with ⟨r0, hr0, rfl⟩
    exact Utilities.applyMask_length _ r0 (by rw [hte r0 hr0, hlen])
  · intro r hr
    simp only [Utilities.drop_highly_correlated_features] at hr ⊢
    rcases List.mem_map.mp hr with ⟨r0, hr0, rfl⟩
    exact Utilities.applyMask_length _ r0 (by rw [htr r0 hr0, hlen])

/-- C6 witness: at `corr = const 0`, `threshold = 1/2`, `D = 1`,
`X_train = [[3]]`, `X_test = [[4],[5]]` the theorem applies. -/
theorem drop_test_correlated_features_width_witness :
    (∀ r ∈ [[(3 : ℚ)]], r.length = 1) ∧ (∀ r ∈ [[(4 : ℚ)], [5]], r.length = 1) ∧
      ((∀ r ∈ Utilities.drop_test_correlated_features [[(4 : ℚ)], [5]]
          (Utilities.drop_highly_correlated_features (fun _ _ => (0 : ℚ)) (1/2) 1 [[(3 : ℚ)]]).2,
        r.length =
          (Utilities.drop_highly_correlated_features (fun _ _ => (0 : ℚ)) (1/2) 1 [[(3 : ℚ)]]).2.countP
            (fun b => !b)) ∧
        ∀ r ∈ (Utilities.drop_highly_correlated_features (fun _ _ => (0 : ℚ)) (1/2) 1 [[(3 : ℚ)]]).1,
          r.length =
            (Utilities.drop_highly_correlated_features (fun _ _ => (0 : ℚ)) (1/2) 1 [[(3 : ℚ)]]).2.countP
              (fun b => !b)) :=
  ⟨by simp, by simp,
    drop_test_correlated_features_width (fun _ _ => (0 : ℚ)) (1/2) 1 [[(3 : ℚ)]]
      [[(4 : ℚ)], [5]] (by simp) (by simp)⟩

/-- C9: the drop mask's entry for column 0 is always `false` — the
double loop only ever sets indices `j ≥ i + 1 ≥ 1` — so the reduced
matrix always keeps at least one column (for rows of the original
width). -/
theorem first_column_never_dropped (corr : ℕ → ℕ → ℚ) (threshold : ℚ)
    (D : ℕ) (data : List (List ℚ)) (hD : 1 ≤ D)
    (hrows : ∀ r ∈ data, r.length = D) :
    (Utilities.drop_highly_correlated_features corr threshold D data).2.getD 0 false = false ∧
      ∀ r ∈ (Utilities.drop_highly_correlated_features corr threshold D data).1,
        1 ≤ r.length := by
  have hlen := Utilities.dropColsLoop_length corr threshold D
  have hhead : (Utilities.dropColsLoop corr threshold D).getD 0 false = false := by
    rw [Utilities.dropColsLoop_getD]
    simp
  refine ⟨hhead, ?_⟩
  intro r hr
  simp only [Utilities.drop_highly_correlated_features] at hr
  rcases List.mem_map.mp hr with ⟨r0, hr0, rfl⟩
  show 1 ≤ (Utilities.applyMask (Utilities.dropColsLoop corr threshold D) r0).length
  rw [Utilities.applyMask_length _ r0 (by rw [hrows r0 hr0, hlen])]
  rcases hmask : Utilities.dropColsLoop corr threshold D with _ | ⟨b, m⟩
  · rw [hmask] at hlen
    simp at hlen
    omega
  · rw [hmask] at hhead
    simp at hhead
    subst hhead
    simp [List.countP_cons]

/-- C9 witness: at `corr = const 1`, `threshold = 0`, `D = 1`,
`data = [[5]]` the theorem applies. -/
theorem first_column_never_dropped_witness :
    1 ≤ 1 ∧ (∀ r ∈ [[(5 : ℚ)]], r.length = 1) ∧
      ((Utilities.drop_highly_correlated_features (fun _ _ => (1 : ℚ)) 0 1 [[(5 : ℚ)]]).2.getD 0 false = false ∧
        ∀ r ∈ (Utilities.drop_highly_correlated_features (fun _ _ => (1 : ℚ)) 0 1 [[(5 : ℚ)]]).1,
          1 ≤ r.length) :=
  ⟨le_refl 1, by simp,
    first_column_never_dropped (fun _ _ => (1 : ℚ)) 0 1 [[(5 : ℚ)]] (le_refl 1) (by simp)⟩

/-- C1: a grid point replaces the current best record exactly when its
cross-validated `f1_score ≥ best_f1_score` AND `accuracy ≥ best_accuracy`
(conjunction, both non-strict); consequently, when all grid points yield
identical non-negative `(accuracy, f1)`, the returned pair is the
last-iterated grid point (last gamma of the outer loop, last lambda of
the inner loop). -/
theorem hyperparameter_tuning_selection_rule
    (cv cvc : (String → Option ℚ) → ℚ × ℚ) (gamma lambda_ a f : ℚ)
    (s : Utilities.TuneState) (lambdas gammas : List ℚ)
    (mp0 : String → Option ℚ)
    (ha : 0 ≤ a) (hf : 0 ≤ f) (hcvc : ∀ mp, cvc mp = (a, f))
    (hl : lambdas ≠ []) (hg : gammas ≠ []) :
    (Utilities.tuningStep cv gamma lambda_ s =
        { best_accuracy :=
            (cv (Utilities.updateParam
              (Utilities.updateParam s.model_params "lambda_" lambda_) "gamma" gamma)).1,
          best_f1_score :=
            (cv (Utilities.updateParam
              (Utilities.updateParam s.model_params "lambda_" lambda_) "gamma" gamma)).2,
          best_param_lambda := some lambda_,
          best_param_gamma := some gamma,
          model_params :=
            Utilities.updateParam
              (Utilities.updateParam s.model_params "lambda_" lambda_) "gamma" gamma } ↔
      ((cv (Utilities.updateParam
          (Utilities.updateParam s.model_params "lambda_" lambda_) "gamma" gamma)).2 ≥
          s.best_f1_score ∧
        (cv (Utilities.updateParam
          (Utilities.updateParam s.model_params "lambda_" lambda_) "gamma" gamma)).1 ≥
          s.best_accuracy)) ∧
      (Utilities.hyperparameter_tuning cvc lambdas gammas mp0).1 =
        (lambdas.getLast?, gammas.getLast?) := by
  constructor
  · constructor
    · intro h
      by_cases hcond :
        (cv (Utilities.updateParam
            (Utilities.updateParam s.model_params "lambda_" lambda_) "gamma" gamma)).2 ≥
            s.best_f1_score ∧
          (cv (Utilities.updateParam
            (Utilities.updateParam s.model_params "lambda_" lambda_) "gamma" gamma)).1 ≥
            s.best_accuracy
      · exact hcond
      · exfalso
        simp only [Utilities.tuningStep] at h
        rw [if_neg hcond] at h
        have h1 := congrArg Utilities.TuneState.best_f1_score h
        have h2 := congrArg Utilities.TuneState.best_accuracy h
        simp only at h1 h2
        exact hcond ⟨h1.le, h2.le⟩
    · intro hcond
      simp only [Utilities.tuningStep]
      rw [if_pos hcond]
  · have hh := Utilities.outerFold_best cvc a f hcvc lambdas hl gammas
      ⟨0, 0, none, none, mp0⟩ hg ha hf
    exact Prod.ext hh.1 hh.2

/-- C1 witness: with every grid point scoring `(1, 1)` on the grid
`lambdas = [1,2]`, `gammas = [3]`, the search returns the last-iterated
point `(lambda, gamma) = (2, 3)`; the hypotheses are discharged at this
concrete input. -/
theorem hyperparameter_tuning_selection_rule_witness :
    (Utilities.hyperparameter_tuning (fun _ => ((1 : ℚ), 1)) [1, 2] [3]
        (fun _ => none)).1 = (some 2, some 3) := by
  have h := hyperparameter_tuning_selection_rule (fun _ => ((0 : ℚ), 0))
    (fun _ => ((1 : ℚ), 1)) 5 7 1 1
    ⟨0, 0, none, none, fun _ => none⟩ [1, 2] [3] (fun _ => none)
    (by norm_num) (by norm_num) (fun mp => rfl) (by simp) (by simp)
  simpa using h.2

/-- C10: `hyperparameter_tuning` mutates the caller's `model_params`
dictionary in place — after it returns, `model_params["lambda_"]` and
`model_params["gamma"]` hold the last-iterated lambda and gamma (not
necessarily the returned best pair), while every other key is
unchanged. -/
theorem hyperparameter_tuning_mutates_model_params
    (cv : (String → Option ℚ) → ℚ × ℚ) (lambdas gammas : List ℚ)
    (mp0 : String → Option ℚ) (hl : lambdas ≠ []) (hg : gammas ≠ []) :
    (Utilities.hyperparameter_tuning cv lambdas gammas mp0).2 "lambda_" =
        lambdas.getLast? ∧
      (Utilities.hyperparameter_tuning cv lambdas gammas mp0).2 "gamma" =
        gammas.getLast? ∧
      ∀ k, k ≠ "lambda_" → k ≠ "gamma" →
        (Utilities.hyperparameter_tuning cv lambdas gammas mp0).2 k = mp0 k := by
  exact Utilities.outerFold_model_params cv lambdas hl gammas
    ⟨0, 0, none, none, mp0⟩ hg

/-- C10 witness: on the grid `lambdas = [1,2]`, `gammas = [3]`, with an
initial dictionary carrying `w0 = 9`, after tuning the dictionary holds
`lambda_ = 2`, `gamma = 3`, and `w0` is unchanged. -/
theorem hyperparameter_tuning_mutates_model_params_witness :
    (Utilities.hyperparameter_tuning (fun _ => ((0 : ℚ), 0)) [1, 2] [3]
        (fun k => if k = "w0" then some 9 else none)).2 "lambda_" = some 2 ∧
      (Utilities.hyperparameter_tuning (fun _ => ((0 : ℚ), 0)) [1, 2] [3]
          (fun k => if k = "w0" then some 9 else none)).2 "gamma" = some 3 ∧
      (Utilities.hyperparameter_tuning (fun _ => ((0 : ℚ), 0)) [1, 2] [3]
          (fun k => if k = "w0" then some 9 else none)).2 "w0" = some 9 := by
  have h := hyperparameter_tuning_mutates_model_params (fun _ => ((0 : ℚ), 0))
    [1, 2] [3] (fun k => if k = "w0" then some 9 else none)
    (by simp) (by simp)
  refine ⟨by simpa using h.1, by simpa using h.2.1, ?_⟩
  have hw := h.2.2 "w0" (by decide) (by decide)
  simpa using hw

/-- C2: with `fold_size = N / k`, fold `i`'s test indices are
`shuffled[i*fold_size : (i+1)*fold_size]` and its train indices are the
ascending-sorted complement of the test indices in `{0,…,N-1}`; the k
test folds are pairwise disjoint, their union has size `k * (N / k)`,
every fold's train and test indices are disjoint, and when `N % k ≠ 0`
the last `N % k` shuffled indices lie in no fold's test set and in every
fold's train set. -/
theorem k_fold_partition_spec (N k : ℕ) (shuffled : List ℕ)
    (hperm : shuffled.Perm (List.range N)) (hk : 1 ≤ k) (hkN : k ≤ N) :
    (∀ i, Utilities.train_indices shuffled (Utilities.test_indices shuffled (N / k) i) =
        (List.range N).filter
          (fun x => decide (x ∉ Utilities.test_indices shuffled (N / k) i))) ∧
      (∀ i j, i ≠ j → ∀ x, x ∈ Utilities.test_indices shuffled (N / k) i →
          x ∉ Utilities.test_indices shuffled (N / k) j) ∧
      ((List.range k).map
          (fun i => Utilities.test_indices shuffled (N / k) i)).flatten.toFinset.card =
        k * (N / k) ∧
      (∀ i x, x ∈ Utilities.test_indices shuffled (N / k) i →
          x ∉ Utilities.train_indices shuffled
            (Utilities.test_indices shuffled (N / k) i)) ∧
      (N % k ≠ 0 →
        (shuffled.drop (k * (N / k))).length = N % k ∧
          ∀ x ∈ shuffled.drop (k * (N / k)), ∀ i < k,
            x ∉ Utilities.test_indices shuffled (N / k) i ∧
              x ∈ Utilities.train_indices shuffled
                (Utilities.test_indices shuffled (N / k) i)) := by
  have hN : shuffled.length = N := by rw [hperm.length_eq, List.length_range]
  have hnd : shuffled.Nodup := hperm.nodup_iff.mpr (List.nodup_range N)
  have hmem : ∀ x, x ∈ shuffled ↔ x < N := fun x => by
    rw [hperm.mem_iff, List.mem_range]
  have hkfs : k * (N / k) ≤ N := Nat.mul_div_le N k
  refine ⟨?_, ?_, ?_, ?_, ?_⟩
  · intro i
    refine @List.eq_of_perm_of_sorted ℕ (· ≤ ·) _ _ _ ?_ ?_ ?_
    · apply (List.perm_ext_iff_of_nodup (Utilities.setdiff1d_nodup _ _)
        ((List.nodup_range N).filter _)).mpr
      intro x
      rw [Utilities.mem_setdiff1d, List.mem_filter, List.mem_range, hmem x]
      simp
    · exact Utilities.setdiff1d_sorted _ _
    · exact ((List.pairwise_lt_range N).filter _).imp le_of_lt
  · intro i j hij x hxi hxj
    rcases Nat.lt_or_ge i j with h | h
    · exact Utilities.test_disjoint_lt shuffled hnd (N / k) i j h x hxi hxj
    · exact Utilities.test_disjoint_lt shuffled hnd (N / k) j i (by omega) x hxj hxi
  · rw [Utilities.join_tests shuffled (N / k) k,
      List.toFinset_card_of_nodup ((List.take_sublist _ _).nodup hnd),
      List.length_take, hN, min_eq_left hkfs]
  · intro i x hx hxtrain
    exact ((Utilities.mem_setdiff1d _ _ x).mp hxtrain).2 hx
  · intro hmod
    have hdm := Nat.div_add_mod N k
    constructor
    · rw [List.length_drop, hN]
      omega
    · intro x hx i hik
      have hxN : x < N := (hmem x).mp (List.drop_subset _ _ hx)
      have hxtest : x ∉ Utilities.test_indices shuffled (N / k) i := by
        intro hxt
        have h1 : x ∈ shuffled.take (k * (N / k)) :=
          Utilities.test_subset_take shuffled (N / k) i (k * (N / k))
            (Nat.mul_le_mul_right _ (by omega)) x hxt
        exact List.disjoint_take_drop hnd le_rfl h1 hx
      exact ⟨hxtest, (Utilities.mem_setdiff1d _ _ x).mpr ⟨(hmem x).mpr hxN, hxtest⟩⟩

/-- C2 witness: instantiated at `N = 5`, `k = 2`,
`shuffled = [0,1,2,3,4]`: the test folds cover `2 * (5 / 2) = 4`
indices and the `5 % 2 = 1` leftover index is in no test fold. -/
theorem k_fold_partition_spec_witness :
    ((List.range 2).map
        (fun i => Utilities.test_indices (List.range 5) (5 / 2) i)).flatten.toFinset.card =
      2 * (5 / 2) ∧
      ((List.range 5).drop (2 * (5 / 2))).length = 5 % 2 := by
  have h := k_fold_partition_spec 5 2 (List.range 5) (List.Perm.refl _)
    (by norm_num) (by norm_num)
  exact ⟨h.2.2.1, (h.2.2.2.2 (by norm_num)).1⟩

/-- C8: the claim that `k_fold_cross_validation` asserts
`X.shape[0] == len(y)` is false — the function performs no such check.
With `X` of 2 rows and `y` of length 3 it runs to completion and returns
cross-validated means instead of failing. -/
theorem k_fold_no_assert_cex :
    Utilities.k_fold_cross_validation (fun _ => (1 : ℚ)/2) [0, 1] [[1], [1]]
      [0, 1, 0] (fun _ _ _ => ([0], 0)) 2 (fun _ => none) (1/2) =
      Except.ok (1/2, 1/2) := by
  with_unfolding_all rfl

/-- C8 (amended): `k_fold_cross_validation` never checks that `X`'s row
count equals `len(y)`.  When `y` is shorter it fails — for every model,
so before any training can matter — with an index-out-of-bounds error
(not an assertion) while slicing the label vector; when `y` is at least
as long as `X` it behaves exactly as if `y` were silently truncated to
the first `N` labels. -/
theorem k_fold_no_length_validation (sigmoid : ℚ → ℚ) (shuffled : List ℕ)
    (N k : ℕ) (X : List (List ℚ)) (y : List ℚ)
    (model : List ℚ → List (List ℚ) → (String → Option ℚ) → List ℚ × ℚ)
    (mp : String → Option ℚ) (threshold : ℚ)
    (hX : X.length = N) (hperm : shuffled.Perm (List.range N)) (hk : 1 ≤ k) :
    (y.length < N →
      Utilities.k_fold_cross_validation sigmoid shuffled X y model k mp threshold =
        Except.error "IndexError") ∧
      (N ≤ y.length →
        Utilities.k_fold_cross_validation sigmoid shuffled X y model k mp threshold =
          Utilities.k_fold_cross_validation sigmoid shuffled X (y.take N) model k mp
            threshold) := by
  have hmem : ∀ x ∈ shuffled, x < N :=
    fun x hx => List.mem_range.mp (hperm.mem_iff.mp hx)
  constructor
  · intro hy
    have hN1 : 1 ≤ N := by omega
    have htestN : ∀ x ∈ Utilities.test_indices shuffled (X.length / k) 0, x < N :=
      fun x hx => hmem x (List.drop_subset _ _ (List.take_subset _ _ hx))
    have htrainN : ∀ x ∈ Utilities.train_indices shuffled
        (Utilities.test_indices shuffled (X.length / k) 0), x < N :=
      fun x hx => hmem x ((Utilities.mem_setdiff1d _ _ x).mp hx).1
    have hf0 : Utilities.fold_step sigmoid shuffled X y model (X.length / k) mp
        threshold 0 = Except.error "IndexError" := by
      obtain ⟨Xtr, hXtr⟩ := Utilities.select_ok_of_bounds X _
        (fun i hi => by rw [hX]; exact htrainN i hi)
      obtain ⟨Xte, hXte⟩ := Utilities.select_ok_of_bounds X _
        (fun i hi => by rw [hX]; exact htestN i hi)
      simp only [Utilities.fold_step]
      rw [hXtr, hXte]
      by_cases hbad : ∀ x ∈ Utilities.train_indices shuffled
          (Utilities.test_indices shuffled (X.length / k) 0), x < y.length
      · obtain ⟨ytr, hytr⟩ := Utilities.select_ok_of_bounds y _ hbad
        have hte : Utilities.select y
            (Utilities.test_indices shuffled (X.length / k) 0) =
            Except.error "IndexError" := by
          apply Utilities.select_err_of_unbounded
          by_cases hN1t : N - 1 ∈ Utilities.test_indices shuffled (X.length / k) 0
          · exact ⟨N - 1, hN1t, by omega⟩
          · exfalso
            have hmemsh : N - 1 ∈ shuffled :=
              hperm.mem_iff.mpr (List.mem_range.mpr (by omega))
            have htr : N - 1 ∈ Utilities.train_indices shuffled
                (Utilities.test_indices shuffled (X.length / k) 0) :=
              (Utilities.mem_setdiff1d _ _ _).mpr ⟨hmemsh, hN1t⟩
            have := hbad (N - 1) htr
            omega
        rw [hytr, hte]
        rfl
      · push_neg at hbad
        rcases hbad with ⟨x0, hx0, hx0len⟩
        rw [Utilities.select_err_of_unbounded y _ ⟨x0, hx0, hx0len⟩]
        rfl
    obtain ⟨m, rfl⟩ : ∃ m, k = m + 1 := ⟨k - 1, by omega⟩
    simp only [Utilities.k_fold_cross_validation]
    rw [List.range_succ_eq_map]
    simp only [Utilities.mapExcept]
    rw [hf0]
    rfl
  · intro hNy
    have hcong := Utilities.mapExcept_congr
      (Utilities.fold_step sigmoid shuffled X (y.take N) model (X.length / k) mp threshold)
      (Utilities.fold_step sigmoid shuffled X y model (X.length / k) mp threshold)
      (List.range k)
      (fun i _ => Utilities.fold_step_take sigmoid shuffled X y model
        (X.length / k) mp threshold N hmem i)
    simp only [Utilities.k_fold_cross_validation]
    rw [hcong]

/-- C8 witness: at `X = [[1],[1]]` (two rows), `y = [0]` (one label),
`k = 2` the amended theorem applies and the call raises `IndexError`. -/
theorem k_fold_no_length_validation_witness :
    ([(0 : ℚ)] : List ℚ).length < 2 ∧
      Utilities.k_fold_cross_validation (fun _ => (1 : ℚ)/2) [0, 1] [[1], [1]]
        [(0 : ℚ)] (fun _ _ _ => ([0], 0)) 2 (fun _ => none) (1/2) =
        Except.error "IndexError" := by
  have h := k_fold_no_length_validation (fun _ => (1 : ℚ)/2) [0, 1] 2 2
    [[1], [1]] [(0 : ℚ)] (fun _ _ _ => ([0], 0)) (fun _ => none) (1/2)
    rfl (by decide) (by norm_num)
  exact ⟨by norm_num, h.1 (by norm_num)⟩
